import Mathlib

/-!
# Verification of `lib/database` (clusterio)

A shallow embedding of `packages/lib/src/database.ts`: the generic JSON
map codec (`mapToObject`, `loadJsonAsMap`, `saveMapAsJson`,
`loadJsonArrayAsMap`) and the `ItemDatabase` item/quality count ledger.

Modelling conventions:

* JavaScript `Map` objects and plain objects are both modelled as
  association lists (`List (κ × α)`) in insertion order, with the JS
  update-or-append write semantics given by `jsSet` and first-match
  lookup given by `jsGet`.  All keys appearing in the claims are
  non-numeric strings, so the JS enumeration-order exception for
  integer-like property keys never applies.
* JSON documents are modelled by the inductive type `Json`.  File
  contents are modelled post-parse: a stored file is either absent, an
  I/O failure, unparsable text, or a parsed `Json` document.  The
  builtins `JSON.stringify`/`JSON.parse` (tab-indented pretty printing
  and its inverse) are platform collaborators, mutually inverse on JSON
  documents, so saving a document and reading the file back yields the
  same document.
* JS numbers used as item counts are modelled as integers (`ℤ`),
  following the data model ("signed integer counts").  `NaN` is kept as
  a separate constructor of the argument type `Arg` so that the
  `isNaN` test in `checkCount` is still meaningful; infinities and
  rounding of doubles are outside the model.
* Thrown JS `Error`s are modelled by the `Except DbError` monad, with
  the error taxonomy (`ValidationError`, `FormatError`, parse and I/O
  errors) of the design.  A call that throws has no effect: in the
  source every `throw` happens before any mutation or write.
-/

set_option autoImplicit false

namespace ClusterioDb

/-- A JSON document (the result of `JSON.parse`, or input to
`JSON.stringify`).  Numbers are modelled as integers. -/
inductive Json where
  | null
  | bool (b : Bool)
  | num (n : ℤ)
  | str (s : String)
  | arr (elems : List Json)
  | obj (entries : List (String × Json))

/-- Modelled from the spec: `basicType` from `./helpers` (not under
`src/`) classifies a value, distinguishing `"array"` and `"null"` from
`"object"` ("arrays, scalars, null all rejected" when an object is
expected). -/
def basicType : Json → String
  | .null => "null"
  | .bool _ => "boolean"
  | .num _ => "number"
  | .str _ => "string"
  | .arr _ => "array"
  | .obj _ => "object"

/-- Error taxonomy of the design: validation errors, format errors,
JSON parse errors (`SyntaxError` from `JSON.parse`) and other I/O
errors.  The source throws plain `Error`s; the constructor records
which class a given throw site belongs to, and the message. -/
inductive DbError where
  | validationError (msg : String)
  | formatError (msg : String)
  | parseError
  | ioError
  deriving DecidableEq, Repr

/-- Outcome of `fs.readFile` followed by `JSON.parse` on a path:
the file is absent (`err.code === "ENOENT"`), reading failed with some
other I/O error, or the file holds text that either fails to parse
(`content none`) or parses to a document (`content (some j)`). -/
inductive ReadOutcome where
  | enoent
  | ioFailure
  | content (doc : Option Json)

section JsMap

variable {κ α : Type _} [DecidableEq κ]

/-- First-match lookup in an association list: JS `Map.prototype.get`
and property access on a plain object (keys are unique in JS, so the
first match is the only one). -/
def jsGet : List (κ × α) → κ → Option α
  | [], _ => none
  | (k, v) :: rest, key => if k = key then some v else jsGet rest key

/-- JS write semantics for `Map.prototype.set` and object property
assignment: update the value in place if the key is present, otherwise
append the new entry at the end. -/
def jsSet : List (κ × α) → κ → α → List (κ × α)
  | [], key, value => [(key, value)]
  | (k, v) :: rest, key, value =>
      if k = key then (k, value) :: rest else (k, v) :: jsSet rest key value

@[simp] theorem jsGet_nil (key : κ) : jsGet ([] : List (κ × α)) key = none := rfl

@[simp] theorem jsGet_cons (k : κ) (v : α) (rest : List (κ × α)) (key : κ) :
    jsGet ((k, v) :: rest) key = if k = key then some v else jsGet rest key := rfl

@[simp] theorem jsSet_nil (key : κ) (value : α) :
    jsSet ([] : List (κ × α)) key value = [(key, value)] := rfl

@[simp] theorem jsSet_cons (k : κ) (v : α) (rest : List (κ × α)) (key : κ) (value : α) :
    jsSet ((k, v) :: rest) key value =
      if k = key then (k, value) :: rest else (k, v) :: jsSet rest key value := rfl

theorem jsGet_jsSet_self (l : List (κ × α)) (key : κ) (value : α) :
    jsGet (jsSet l key value) key = some value := by
  induction l with
  | nil => simp
  | cons p rest ih =>
      obtain ⟨k, v⟩ := p
      by_cases h : k = key <;> simp [h, ih]

theorem jsGet_jsSet_ne (l : List (κ × α)) (key key' : κ) (value : α) (h : key ≠ key') :
    jsGet (jsSet l key value) key' = jsGet l key' := by
  induction l with
  | nil => simp [h]
  | cons p rest ih =>
      obtain ⟨k, v⟩ := p
      by_cases hk : k = key
      · subst hk
        simp [h]
      · rw [jsSet_cons, if_neg hk, jsGet_cons, jsGet_cons, ih]

/-- Setting an absent key appends the entry at the end. -/
theorem jsSet_of_get_none (l : List (κ × α)) (key : κ) (value : α)
    (h : jsGet l key = none) : jsSet l key value = l ++ [(key, value)] := by
  induction l with
  | nil => simp
  | cons p rest ih =>
      obtain ⟨k, v⟩ := p
      by_cases hk : k = key
      · simp [hk] at h
      · simp [hk] at h ⊢
        exact ih h

/-- Writing through `jsSet` either keeps the key list unchanged (the
key was present) or appends the key at the end (it was absent). -/
theorem jsSet_map_fst (l : List (κ × α)) (key : κ) (value : α) :
    (jsSet l key value).map Prod.fst = l.map Prod.fst ∨
      (jsSet l key value).map Prod.fst = l.map Prod.fst ++ [key] := by
  induction l with
  | nil => right; rfl
  | cons p rest ih =>
      obtain ⟨k, v⟩ := p
      by_cases hk : k = key
      · left; simp [hk]
      · rcases ih with ih | ih
        · left; simp [hk, ih]
        · right; simp [hk, ih]

theorem length_jsSet (l : List (κ × α)) (key : κ) (value : α) :
    l.length ≤ (jsSet l key value).length := by
  rcases jsSet_map_fst l key value with h | h <;>
    have := congrArg List.length h <;> simp at this <;> omega

theorem mem_map_fst_jsSet (l : List (κ × α)) (key : κ) (value : α) (a : κ)
    (h : a ∈ l.map Prod.fst) : a ∈ (jsSet l key value).map Prod.fst := by
  rcases jsSet_map_fst l key value with h' | h' <;> rw [h']
  · exact h
  · exact List.mem_append_left _ h

/-- On a list whose keys avoid `key`, `jsGet` misses. -/
theorem jsGet_eq_none_of_not_mem (l : List (κ × α)) (key : κ)
    (h : key ∉ l.map Prod.fst) : jsGet l key = none := by
  induction l with
  | nil => rfl
  | cons p rest ih =>
      obtain ⟨k, v⟩ := p
      rw [List.map_cons, List.mem_cons] at h
      push_neg at h
      rw [jsGet_cons, if_neg (fun hk => h.1 hk.symm)]
      exact ih h.2

end JsMap

/-- A key of a JavaScript `Map` passed to `mapToObject`: either a
string, or a value of some other runtime type, recorded by its
`typeof` tag (only the tag is observable in the error path). -/
inductive JsKey where
  | str (s : String)
  | notStr (tag : String)
  deriving DecidableEq

/-- `mapToObject`: converts a `Map` to a plain object, property
assignment in iteration order; throws on the first non-string key. -/
def mapToObject (map : List (JsKey × Json)) : Except DbError (List (String × Json)) :=
  go map []
where
  go : List (JsKey × Json) → List (String × Json) → Except DbError (List (String × Json))
    | [], obj => .ok obj
    | (key, value) :: rest, obj =>
        match key with
        | .str s => go rest (jsSet obj s value)
        | .notStr tag =>
            .error (.validationError ("Expected all keys to be string but got " ++ tag))

/-- `saveMapAsJson`: converts the map to an object and hands
`JSON.stringify(obj, null, "\t")` of it to the durable-write
collaborator (`safeOutputFile`, external to this module).  The result
is the JSON document whose tab-indented text is written; when
`mapToObject` throws, the write is never reached and nothing is
written. -/
def saveMapAsJson (map : List (JsKey × Json)) : Except DbError Json :=
  (mapToObject map).map Json.obj

/-- `loadJsonAsMap`: reads and parses the file, requires a top-level
object (`basicType(parsed) !== "object"` throws) and returns
`new Map(Object.entries(parsed))`.  An `ENOENT` read failure is
converted to an empty map; every other error thrown in the `try` body
is re-thrown. -/
def loadJsonAsMap : ReadOutcome → Except DbError (List (String × Json))
  | .enoent => .ok []
  | .ioFailure => .error .ioError
  | .content none => .error .parseError
  | .content (some parsed) =>
      match parsed with
      | .obj entries => .ok entries
      | other => .error (.formatError ("Expected object but got " ++ basicType other))

/-- JS `Map` key equality (SameValueZero) as it applies to values
produced by `JSON.parse`: primitives compare structurally, while
objects and arrays compare by reference — and since every object or
array inside a single parse result is a fresh, distinct allocation,
two of them never compare equal. -/
def idKeyEq : Json → Json → Bool
  | .null, .null => true
  | .bool x, .bool y => x == y
  | .num x, .num y => x == y
  | .str x, .str y => x == y
  | _, _ => false

/-- `Map.prototype.get` with SameValueZero key comparison. -/
def idGet : List (Json × Json) → Json → Option Json
  | [], _ => none
  | (k, v) :: rest, key => if idKeyEq k key then some v else idGet rest key

/-- `Map.prototype.set` with SameValueZero key comparison: replace the
value of the first matching key, else append. -/
def idSet : List (Json × Json) → Json → Json → List (Json × Json)
  | [], key, value => [(key, value)]
  | (k, v) :: rest, key, value =>
      if idKeyEq k key then (k, value) :: rest else (k, v) :: idSet rest key value

/-- `loadJsonArrayAsMap`: reads and parses the file, requires a
top-level array, and folds the elements into a map keyed by each
element's `id` property.  Each element must be an object and must have
a defined `id`; `map.set` lets a later duplicate id overwrite an
earlier one.  `ENOENT` yields an empty map; other errors re-throw. -/
def loadJsonArrayAsMap : ReadOutcome → Except DbError (List (Json × Json))
  | .enoent => .ok []
  | .ioFailure => .error .ioError
  | .content none => .error .parseError
  | .content (some parsed) =>
      match parsed with
      | .arr elements => buildIdMap elements []
      | other => .error (.formatError ("Expected array but got " ++ basicType other))
where
  buildIdMap : List Json → List (Json × Json) → Except DbError (List (Json × Json))
    | [], map => .ok map
    | element :: rest, map =>
        match element with
        | .obj fields =>
            match jsGet fields "id" with
            | none => .error (.formatError "Expected all elements to have an id property")
            | some idValue => buildIdMap rest (idSet map idValue element)
        | _ => .error (.formatError "Expected all elements to be objects")

/-- A JavaScript value passed as an argument to an `ItemDatabase`
method.  Counts are modelled as integers; `nan` is the number `NaN`
(`typeof` is `"number"` but `isNaN` holds); `other` is a value of any
non-string non-number runtime type, recorded by its `typeof` tag. -/
inductive Arg where
  | str (s : String)
  | num (n : ℤ)
  | nan
  | other (tag : String)
  deriving DecidableEq

/-- `checkName`: `typeof name !== "string"` throws. -/
def checkName : Arg → Except DbError String
  | .str s => .ok s
  | _ => .error (.validationError "name must be a string")

/-- `checkCount`: `typeof count !== "number" || isNaN(count)` throws. -/
def checkCount : Arg → Except DbError ℤ
  | .num n => .ok n
  | _ => .error (.validationError "count must be a number")

/-- `checkQuality`: `typeof quality !== "string"` throws. -/
def checkQuality : Arg → Except DbError String
  | .str s => .ok s
  | _ => .error (.validationError "quality must be a string")

/-- The in-memory state of an `ItemDatabase`: the private `_items`
map from item name to its per-quality count record, both in insertion
order. -/
structure ItemDatabase where
  items : List (String × List (String × ℤ))
  deriving DecidableEq

namespace ItemDatabase

/-- The `size` getter: `this._items.size`. -/
def size (db : ItemDatabase) : ℕ := db.items.length

/-- `getEntries()`: `this._items.entries()`, the live entry sequence. -/
def getEntries (db : ItemDatabase) : List (String × List (String × ℤ)) := db.items

/-- `getItemCount(name, quality)`: validates both arguments, then
`if (!this._items.get(name)?.[quality]) return 0;` — a missing item,
missing quality, or falsy (zero) stored count yields 0 — otherwise
returns the stored count. -/
def getItemCount (db : ItemDatabase) (name quality : Arg) : Except DbError ℤ := do
  let n ← checkName name
  let q ← checkQuality quality
  match (jsGet db.items n).bind (fun qualities => jsGet qualities q) with
  | none => pure 0
  | some c => if c = 0 then pure 0 else pure c

/-- `addItem(name, count, quality)`: validates the arguments in source
order; a fresh name is inserted as `{ [quality]: count }`, otherwise
`count` is added to the present record's count for `quality`, treating
an absent quality as 0 (the `?? 0`). -/
def addItem (db : ItemDatabase) (name count quality : Arg) : Except DbError ItemDatabase := do
  let n ← checkName name
  let c ← checkCount count
  let q ← checkQuality quality
  match jsGet db.items n with
  | none => pure ⟨jsSet db.items n [(q, c)]⟩
  | some qualities =>
      let currentCount := (jsGet qualities q).getD 0
      pure ⟨jsSet db.items n (jsSet qualities q (currentCount + c))⟩

/-- `removeItem(name, count, quality)`: validates `count`, then
delegates to `addItem(name, -count, quality)`. -/
def removeItem (db : ItemDatabase) (name count quality : Arg) : Except DbError ItemDatabase := do
  let c ← checkCount count
  addItem db name (.num (-c)) quality

/-- One step of the inner `serialize()` loop for one item: for each
quality in property order, a non-zero count is written into the output
object, creating `obj[name]` on first use (`if (!obj[name])`). -/
def serializeItem (obj : List (String × List (String × ℤ))) (name : String)
    (qualities : List (String × ℤ)) : List (String × List (String × ℤ)) :=
  qualities.foldl
    (fun acc p =>
      if p.2 = 0 then acc
      else jsSet acc name (jsSet ((jsGet acc name).getD []) p.1 p.2))
    obj

/-- `serialize()`: builds a plain object from the items map, dropping
zero counts (and hence items all of whose counts are zero). -/
def serialize (db : ItemDatabase) : List (String × List (String × ℤ)) :=
  db.items.foldl (fun obj p => serializeItem obj p.1 p.2) []

end ItemDatabase

/-- A per-item value in a serialized snapshot handed to the
`ItemDatabase` constructor: either a bare number (the pre-quality
legacy format) or a per-quality record, whose values are arbitrary
JSON values until `checkCount` has validated them. -/
inductive SVal where
  | num (n : ℤ)
  | record (entries : List (String × Json))

/-- `checkCount` as applied to a raw per-quality value during
construction (`NaN` cannot occur in a parsed snapshot). -/
def checkCountJson : Json → Except DbError ℤ
  | .num n => .ok n
  | _ => .error (.validationError "count must be a number")

/-- Validate every count of one per-quality record, in order. -/
def validateQualities : List (String × Json) → Except DbError (List (String × ℤ))
  | [] => .ok []
  | (q, v) :: rest => do
      let c ← checkCountJson v
      let tail ← validateQualities rest
      pure ((q, c) :: tail)

namespace ItemDatabase

/-- The `ItemDatabase` constructor on a defined `serialized` argument:
iterates `Object.entries(serialized)` (names are strings, so
`checkName` always passes), migrates a bare-number value to
`{ normal: value }`, validates every count, and `this._items.set`s the
record.  A `checkCount` throw aborts construction. -/
def ofSerialized (serialized : List (String × SVal)) : Except DbError ItemDatabase :=
  go serialized []
where
  go : List (String × SVal) → List (String × List (String × ℤ)) →
      Except DbError ItemDatabase
    | [], items => .ok ⟨items⟩
    | (name, value) :: rest, items =>
        let qualities :=
          match value with
          | .num n => [("normal", Json.num n)]
          | .record entries => entries
        match validateQualities qualities with
        | .error e => .error e
        | .ok record => go rest (jsSet items name record)

/-- Well-formedness of the in-memory state, as guaranteed by the JS
runtime: `Map` keys are unique, and the property names of each
per-quality record object are unique. -/
def WF (db : ItemDatabase) : Prop :=
  (db.items.map Prod.fst).Nodup ∧ ∀ p ∈ db.items, (p.2.map Prod.fst).Nodup

instance (db : ItemDatabase) : Decidable (WF db) := by
  unfold WF; infer_instance

end ItemDatabase

/-- Closed form of one `serialize()` item: drop the zero counts, and
drop the item entirely when nothing remains. -/
def pruneItem (p : String × List (String × ℤ)) : Option (String × List (String × ℤ)) :=
  let kept := p.2.filter (fun q => q.2 ≠ 0)
  if kept.isEmpty then none else some (p.1, kept)

/-- The inner `serialize()` loop restricted to one record: write every
non-zero count into an accumulator record. -/
def writeNonzero (record : List (String × ℤ)) (qualities : List (String × ℤ)) :
    List (String × ℤ) :=
  qualities.foldl (fun acc p => if p.2 = 0 then acc else jsSet acc p.1 p.2) record

/-- View of a `serialize()` result as a constructor argument: each
per-quality record of counts read back as a plain object of JSON
numbers. -/
def toSnapshot (obj : List (String × List (String × ℤ))) : List (String × SVal) :=
  obj.map (fun p => (p.1, .record (p.2.map (fun q => (q.1, Json.num q.2)))))

/-- The migration rule as the claim states it: a bare number `n`
becomes the record `{ normal: n }`, and a per-quality record is kept
as it is (its numeric values). -/
def migrateSpec : SVal → List (String × ℤ)
  | .num n => [("normal", n)]
  | .record entries =>
      entries.filterMap (fun p =>
        match p.2 with
        | .num n => some ((p.1, n) : String × ℤ)
        | _ => none)

/-- Whether an `Arg` is a JS string. -/
def Arg.isString : Arg → Bool
  | .str _ => true
  | _ => false

/-- The `id` property of an array element, when the element is an
object that has one. -/
def elementId : Json → Option Json
  | .obj fields => jsGet fields "id"
  | .null => none
  | .bool _ => none
  | .num _ => none
  | .str _ => none
  | .arr _ => none

/-- The last element of the list whose `id` matches the query key
under JS map-key equality — the survivor under last-write-wins. -/
def lastIdMatch : List Json → Json → Option Json
  | [], _ => none
  | element :: rest, q =>
      match lastIdMatch rest q with
      | some v => some v
      | none =>
          match elementId element with
          | some i => if idKeyEq i q then some element else none
          | none => none

/-- One observable `ItemDatabase` call, with its raw JS arguments. -/
inductive Op where
  | get (name quality : Arg)
  | add (name count quality : Arg)
  | remove (name count quality : Arg)
  | ser
  | entries

/-- Run one call against the state: reads leave it unchanged, and a
call that throws has no effect, since every throw in the source
happens before the first mutation. -/
def applyOp (db : ItemDatabase) : Op → ItemDatabase
  | .get _ _ => db
  | .add name count quality =>
      match db.addItem name count quality with
      | .ok db2 => db2
      | .error _ => db
  | .remove name count quality =>
      match db.removeItem name count quality with
      | .ok db2 => db2
      | .error _ => db
  | .ser => db
  | .entries => db

/-- Run a sequence of calls left to right. -/
def runOps (db : ItemDatabase) (ops : List Op) : ItemDatabase :=
  ops.foldl applyOp db

/-! ## Association-list and operation lemmas -/

@[simp] theorem ok_bind {ε α β : Type _} (a : α) (f : α → Except ε β) :
    (Except.ok a : Except ε α) >>= f = f a := rfl

@[simp] theorem error_bind {ε α β : Type _} (e : ε) (f : α → Except ε β) :
    (Except.error e : Except ε α) >>= f = Except.error e := rfl

@[simp] theorem pure_eq_ok {ε α : Type _} (a : α) :
    (pure a : Except ε α) = Except.ok a := rfl

section JsMapLemmas

variable {κ α : Type _} [DecidableEq κ]

theorem jsSet_jsSet_self (l : List (κ × α)) (key : κ) (v1 v2 : α) :
    jsSet (jsSet l key v1) key v2 = jsSet l key v2 := by
  induction l with
  | nil => simp
  | cons p rest ih =>
      obtain ⟨k, v⟩ := p
      by_cases hk : k = key <;> simp [hk, ih]

end JsMapLemmas

namespace ItemDatabase

/-- `addItem` on validated arguments, computed. -/
theorem addItem_valid (db : ItemDatabase) (n : String) (c : ℤ) (q : String) :
    db.addItem (.str n) (.num c) (.str q) =
      .ok ⟨match jsGet db.items n with
        | none => jsSet db.items n [(q, c)]
        | some qualities =>
            jsSet db.items n (jsSet qualities q ((jsGet qualities q).getD 0 + c))⟩ := by
  cases h : jsGet db.items n <;>
    simp [addItem, checkName, checkCount, checkQuality, h]

/-- `removeItem` on validated arguments delegates to `addItem` with
the negated count. -/
theorem removeItem_valid (db : ItemDatabase) (n : String) (c : ℤ) (q : String) :
    db.removeItem (.str n) (.num c) (.str q) =
      db.addItem (.str n) (.num (-c)) (.str q) := by
  simp [removeItem, checkCount]

/-- `getItemCount` on validated arguments returns the stored count,
an absent entry and a stored 0 both reading as 0. -/
theorem getItemCount_valid (db : ItemDatabase) (n q : String) :
    db.getItemCount (.str n) (.str q) =
      .ok (((jsGet db.items n).bind (fun qualities => jsGet qualities q)).getD 0) := by
  cases h : (jsGet db.items n).bind (fun qualities => jsGet qualities q) with
  | none => simp [getItemCount, checkName, checkQuality, h]
  | some c =>
      by_cases hc : c = 0 <;>
        simp [getItemCount, checkName, checkQuality, h, hc]

end ItemDatabase

/-! ## Claim theorems -/

open ItemDatabase in
/-- C1: for every ledger state, every name `n`, quality `q` and count
`c` accepted by the count validation, `addItem(n, c, q)` followed by
`removeItem(n, c, q)` succeeds and leaves `getItemCount(n, q)` at its
value before the two calls. -/
theorem add_remove_restores_getItemCount (db : ItemDatabase) (n q : String) (c : ℤ) :
    ∃ db1 db2,
      db.addItem (.str n) (.num c) (.str q) = .ok db1 ∧
      db1.removeItem (.str n) (.num c) (.str q) = .ok db2 ∧
      db2.getItemCount (.str n) (.str q) = db.getItemCount (.str n) (.str q) := by
  cases h1 : jsGet db.items n with
  | none =>
      refine ⟨⟨jsSet db.items n [(q, c)]⟩, ⟨jsSet db.items n [(q, 0)]⟩, ?_, ?_, ?_⟩
      · rw [addItem_valid, h1]
      · rw [removeItem_valid, addItem_valid]
        have h2 : jsGet (jsSet db.items n [(q, c)]) n = some [(q, c)] :=
          jsGet_jsSet_self _ _ _
        rw [h2]
        simp [jsSet_jsSet_self]
      · rw [getItemCount_valid, getItemCount_valid, h1]
        have h3 : jsGet (jsSet db.items n [(q, 0)]) n = some [(q, 0)] :=
          jsGet_jsSet_self _ _ _
        simp [h3]
  | some qualities =>
      set v0 : ℤ := (jsGet qualities q).getD 0 with hv0
      refine ⟨⟨jsSet db.items n (jsSet qualities q (v0 + c))⟩,
        ⟨jsSet db.items n (jsSet qualities q v0)⟩, ?_, ?_, ?_⟩
      · rw [addItem_valid, h1]
      · rw [removeItem_valid, addItem_valid]
        have h2 : jsGet (jsSet db.items n (jsSet qualities q (v0 + c))) n =
            some (jsSet qualities q (v0 + c)) := jsGet_jsSet_self _ _ _
        rw [h2]
        simp only [jsGet_jsSet_self, Option.getD_some, jsSet_jsSet_self]
        have harith : v0 + c + -c = v0 := by ring
        rw [harith]
      · rw [getItemCount_valid, getItemCount_valid, h1]
        have h3 : jsGet (jsSet db.items n (jsSet qualities q v0)) n =
            some (jsSet qualities q v0) := jsGet_jsSet_self _ _ _
        simp [h3, jsGet_jsSet_self, ← hv0]

open ItemDatabase in
/-- C5: `getItemCount(name, quality)` fails with a `ValidationError`
when `name` or `quality` is not a string; otherwise it returns 0 when
the item name or the quality is absent (so any pair never added reads
as 0), and otherwise returns the stored count — a stored 0 also reads
as 0 through the falsy check, and negative counts are returned as
stored. -/
theorem getItemCount_validation_and_absence (db : ItemDatabase) (name quality : Arg) :
    (name.isString = false ∨ quality.isString = false →
      ∃ msg, db.getItemCount name quality = .error (.validationError msg)) ∧
    (∀ n q, name = .str n → quality = .str q →
      ((jsGet db.items n).bind (fun qualities => jsGet qualities q) = none →
        db.getItemCount name quality = .ok 0) ∧
      (∀ c, (jsGet db.items n).bind (fun qualities => jsGet qualities q) = some c →
        db.getItemCount name quality = .ok c)) := by
  constructor
  · intro h
    cases name with
    | str s =>
        cases quality with
        | str t => simp [Arg.isString] at h
        | num m =>
            exact ⟨"quality must be a string",
              by simp [getItemCount, checkName, checkQuality]⟩
        | nan =>
            exact ⟨"quality must be a string",
              by simp [getItemCount, checkName, checkQuality]⟩
        | other tag =>
            exact ⟨"quality must be a string",
              by simp [getItemCount, checkName, checkQuality]⟩
    | num m => exact ⟨"name must be a string", by simp [getItemCount, checkName]⟩
    | nan => exact ⟨"name must be a string", by simp [getItemCount, checkName]⟩
    | other tag => exact ⟨"name must be a string", by simp [getItemCount, checkName]⟩
  · rintro n q rfl rfl
    constructor
    · intro h
      rw [getItemCount_valid, h]
      rfl
    · intro c h
      rw [getItemCount_valid, h]
      rfl

/-- Witness for C5 on a concrete ledger: a non-string name is
rejected, a stored count is returned, and an absent item reads 0. -/
theorem getItemCount_validation_and_absence_witness :
    (∃ msg, ItemDatabase.getItemCount ⟨[("iron", [("normal", 2)])]⟩ (.num 3) (.str "normal") =
      .error (.validationError msg)) ∧
    ItemDatabase.getItemCount ⟨[("iron", [("normal", 2)])]⟩ (.str "iron") (.str "normal") =
      .ok 2 ∧
    ItemDatabase.getItemCount ⟨[("iron", [("normal", 2)])]⟩ (.str "gold") (.str "normal") =
      .ok 0 :=
  ⟨(getItemCount_validation_and_absence ⟨[("iron", [("normal", 2)])]⟩ (.num 3)
      (.str "normal")).1 (Or.inl rfl),
   ((getItemCount_validation_and_absence ⟨[("iron", [("normal", 2)])]⟩ (.str "iron")
      (.str "normal")).2 "iron" "normal" rfl rfl).2 2 (by decide),
   ((getItemCount_validation_and_absence ⟨[("iron", [("normal", 2)])]⟩ (.str "gold")
      (.str "normal")).2 "gold" "normal" rfl rfl).1 (by decide)⟩

/-- C6: `loadJsonAsMap` returns an empty mapping when the file does
not exist, and this is the only tolerated failure: other I/O errors
and parse errors propagate, a parsed non-object value fails with a
`FormatError`, and a call succeeds exactly when the file is absent or
holds a top-level JSON object. -/
theorem loadJsonAsMap_error_policy :
    loadJsonAsMap .enoent = .ok [] ∧
    loadJsonAsMap .ioFailure = .error .ioError ∧
    loadJsonAsMap (.content none) = .error .parseError ∧
    (∀ j, basicType j ≠ "object" →
      ∃ msg, loadJsonAsMap (.content (some j)) = .error (.formatError msg)) ∧
    (∀ r, (∃ m, loadJsonAsMap r = .ok m) ↔
      r = .enoent ∨ ∃ entries, r = .content (some (.obj entries))) := by
  refine ⟨rfl, rfl, rfl, ?_, ?_⟩
  · intro j h
    cases j with
    | obj entries => simp [basicType] at h
    | null => exact ⟨_, rfl⟩
    | bool b => exact ⟨_, rfl⟩
    | num m => exact ⟨_, rfl⟩
    | str s => exact ⟨_, rfl⟩
    | arr elems => exact ⟨_, rfl⟩
  · intro r
    constructor
    · rintro ⟨m, hm⟩
      cases r with
      | enoent => exact Or.inl rfl
      | ioFailure => simp [loadJsonAsMap] at hm
      | content doc =>
          cases doc with
          | none => simp [loadJsonAsMap] at hm
          | some j =>
              cases j with
              | obj entries => exact Or.inr ⟨entries, rfl⟩
              | null => simp [loadJsonAsMap] at hm
              | bool b => simp [loadJsonAsMap] at hm
              | num k => simp [loadJsonAsMap] at hm
              | str s => simp [loadJsonAsMap] at hm
              | arr elems => simp [loadJsonAsMap] at hm
    · rintro (rfl | ⟨entries, rfl⟩)
      · exact ⟨[], rfl⟩
      · exact ⟨entries, rfl⟩

/-- Witness for C6: a top-level array is rejected with a
`FormatError`, and an object file yields its entries. -/
theorem loadJsonAsMap_error_policy_witness :
    (∃ msg, loadJsonAsMap (.content (some (.arr [.num 1, .num 2, .num 3]))) =
      .error (.formatError msg)) ∧
    (∃ m, loadJsonAsMap (.content (some (.obj [("a", .num 1)]))) = .ok m) :=
  ⟨loadJsonAsMap_error_policy.2.2.2.1 (.arr [.num 1, .num 2, .num 3]) (by decide),
   (loadJsonAsMap_error_policy.2.2.2.2 (.content (some (.obj [("a", .num 1)])))).mpr
     (Or.inr ⟨[("a", .num 1)], rfl⟩)⟩

/-- `mapToObject` on a map of string keys none of which collides with
the accumulator: every write appends, so the object lists the entries
in iteration order. -/
theorem mapToObject_go_str (sm : List (String × Json)) :
    ∀ acc : List (String × Json),
      (∀ n ∈ sm.map Prod.fst, n ∉ acc.map Prod.fst) → (sm.map Prod.fst).Nodup →
      mapToObject.go (sm.map (fun p => (JsKey.str p.1, p.2))) acc = .ok (acc ++ sm) := by
  induction sm with
  | nil => intro acc _ _; simp [mapToObject.go]
  | cons p rest ih =>
      obtain ⟨s, v⟩ := p
      intro acc hdisj hnodup
      have hs : s ∉ acc.map Prod.fst := hdisj s (by simp)
      have happ : jsSet acc s v = acc ++ [(s, v)] :=
        jsSet_of_get_none _ _ _ (jsGet_eq_none_of_not_mem _ _ hs)
      rw [List.map_cons, mapToObject.go, happ]
      rw [List.map_cons] at hnodup
      have hrest := ih (acc ++ [(s, v)])
        (by
          intro n hn
          simp only [List.map_append, List.mem_append]
          push_neg
          refine ⟨hdisj n (by simp [hn]), ?_⟩
          have : n ≠ s := by
            intro he
            exact (List.nodup_cons.mp hnodup).1 (he ▸ hn)
          simpa using this)
        (List.nodup_cons.mp hnodup).2
      rw [hrest]
      simp

/-- `mapToObject` throws a `ValidationError` at the first non-string
key, whichever entry carries it. -/
theorem mapToObject_go_err (map : List (JsKey × Json)) :
    ∀ acc, (∃ p ∈ map, ∀ s, p.1 ≠ JsKey.str s) →
      ∃ msg, mapToObject.go map acc = .error (.validationError msg) := by
  induction map with
  | nil => rintro acc ⟨p, hp, -⟩; simp at hp
  | cons p rest ih =>
      obtain ⟨k, v⟩ := p
      rintro acc ⟨q, hq, hqs⟩
      cases k with
      | notStr tag => exact ⟨_, rfl⟩
      | str s =>
          rcases List.mem_cons.mp hq with rfl | hq'
          · exact absurd rfl (hqs s)
          · exact ih (jsSet acc s v) ⟨q, hq', hqs⟩

open ItemDatabase in
/-- C3: saving a mapping with string keys through `saveMapAsJson` and
loading the written file back with `loadJsonAsMap` yields a mapping
with the same keys and values in the same order.  The file content is
modelled post-parse: `JSON.parse` of the `JSON.stringify` output is
the written document itself. -/
theorem saveMap_loadMap_roundtrip (m : List (String × Json))
    (h : (m.map Prod.fst).Nodup) :
    ∃ doc, saveMapAsJson (m.map (fun p => (JsKey.str p.1, p.2))) = .ok doc ∧
      loadJsonAsMap (.content (some doc)) = .ok m := by
  refine ⟨.obj m, ?_, rfl⟩
  unfold saveMapAsJson mapToObject
  rw [mapToObject_go_str m [] (by simp) h]
  simp [Except.map]

/-- Witness for C3 at a two-entry mapping. -/
theorem saveMap_loadMap_roundtrip_witness :
    ∃ doc,
      saveMapAsJson ([("a", Json.num 1), ("b", Json.str "x")].map
        (fun p => (JsKey.str p.1, p.2))) = .ok doc ∧
      loadJsonAsMap (.content (some doc)) = .ok [("a", Json.num 1), ("b", Json.str "x")] :=
  saveMap_loadMap_roundtrip [("a", Json.num 1), ("b", Json.str "x")] (by decide)

/-- C8: `saveMapAsJson` fails with a `ValidationError` when any key of
the mapping is not a string — and then nothing is written, as
`mapToObject` throws before `safeOutputFile` runs — and otherwise
writes the tab-indented stringification of the object holding the
mapping's entries in iteration order (the durable write itself being
the external `safeOutputFile` collaborator). -/
theorem saveMapAsJson_spec (map : List (JsKey × Json)) :
    ((∃ p ∈ map, ∀ s, p.1 ≠ JsKey.str s) →
      ∃ msg, saveMapAsJson map = .error (.validationError msg)) ∧
    (∀ sm : List (String × Json), map = sm.map (fun p => (JsKey.str p.1, p.2)) →
      (sm.map Prod.fst).Nodup → saveMapAsJson map = .ok (.obj sm)) := by
  constructor
  · intro h
    obtain ⟨msg, hmsg⟩ := mapToObject_go_err map [] h
    exact ⟨msg, by unfold saveMapAsJson mapToObject; rw [hmsg]; rfl⟩
  · rintro sm rfl hnodup
    unfold saveMapAsJson mapToObject
    rw [mapToObject_go_str sm [] (by simp) hnodup]
    simp [Except.map]

/-- Witness for C8: a numeric key aborts the save; an all-string
mapping is written in order. -/
theorem saveMapAsJson_spec_witness :
    (∃ msg, saveMapAsJson [(.str "a", .num 1), (.notStr "number", .num 2)] =
      .error (.validationError msg)) ∧
    saveMapAsJson [(.str "a", .num 1), (.str "b", .num 2)] =
      .ok (.obj [("a", .num 1), ("b", .num 2)]) :=
  ⟨(saveMapAsJson_spec [(.str "a", .num 1), (.notStr "number", .num 2)]).1
      ⟨(.notStr "number", .num 2), by simp, fun s => by simp⟩,
   (saveMapAsJson_spec [(.str "a", .num 1), (.str "b", .num 2)]).2
      [("a", .num 1), ("b", .num 2)] rfl (by decide)⟩

theorem idKeyEq_symm (a b : Json) : idKeyEq a b = idKeyEq b a := by
  cases a <;> cases b <;> simp [idKeyEq] <;>
    constructor <;> (intro h; exact h.symm)

theorem idKeyEq_trans {a b c : Json} (h1 : idKeyEq a b = true) (h2 : idKeyEq b c = true) :
    idKeyEq a c = true := by
  cases a <;> cases b <;> cases c <;> simp_all [idKeyEq]

/-- Reading a map written through `idSet`: the new value answers every
query matching the written key, other queries are unaffected. -/
theorem idGet_idSet (l : List (Json × Json)) (i v q : Json) :
    idGet (idSet l i v) q = if idKeyEq i q then some v else idGet l q := by
  induction l with
  | nil =>
      by_cases hiq : idKeyEq i q = true <;> simp [idSet, idGet, hiq]
  | cons p rest ih =>
      obtain ⟨k0, v0⟩ := p
      by_cases hk : idKeyEq k0 i = true
      · rw [idSet, if_pos hk]
        by_cases hiq : idKeyEq i q = true
        · have hk0q : idKeyEq k0 q = true := idKeyEq_trans hk hiq
          simp [idGet, hk0q, hiq]
        · have hk0q : idKeyEq k0 q = false := by
            rw [Bool.eq_false_iff]
            intro habs
            exact hiq (idKeyEq_trans ((idKeyEq_symm k0 i) ▸ hk) habs)
          simp [idGet, hk0q, hiq]
      · rw [idSet, if_neg hk]
        by_cases hiq : idKeyEq i q = true
        · have hk0q : idKeyEq k0 q = false := by
            rw [Bool.eq_false_iff]
            intro habs
            exact hk (idKeyEq_trans habs ((idKeyEq_symm i q) ▸ hiq))
          simp [idGet, hk0q, hiq, ih]
        · by_cases hk0q : idKeyEq k0 q = true <;> simp [idGet, hk0q, hiq, ih]

/-- Folding well-formed elements into the id map: the answer for a
query is the last matching element, falling back to the accumulator. -/
theorem buildIdMap_ok (elements : List Json) :
    ∀ acc, (∀ e ∈ elements, (elementId e).isSome) →
      ∃ result, loadJsonArrayAsMap.buildIdMap elements acc = .ok result ∧
        ∀ q, idGet result q =
          match lastIdMatch elements q with
          | some v => some v
          | none => idGet acc q := by
  induction elements with
  | nil =>
      intro acc _
      exact ⟨acc, rfl, fun q => by simp [lastIdMatch]⟩
  | cons e rest ih =>
      intro acc hall
      have he : (elementId e).isSome := hall e (by simp)
      cases hobj : e with
      | obj fields =>
          cases hid : jsGet fields "id" with
          | none => rw [hobj, elementId, hid] at he; simp at he
          | some i =>
              obtain ⟨result, hres, hget⟩ :=
                ih (idSet acc i (.obj fields)) (fun x hx => hall x (by simp [hx]))
              refine ⟨result, ?_, ?_⟩
              · rw [loadJsonArrayAsMap.buildIdMap, hid]
                exact hres
              · intro q
                rw [hget q, lastIdMatch]
                have hei : elementId (Json.obj fields) = some i := by
                  rw [elementId, hid]
                cases hl : lastIdMatch rest q with
                | some v => simp
                | none =>
                    rw [hei]
                    by_cases hiq : idKeyEq i q = true <;>
                      simp [idGet_idSet, hiq]
      | null => rw [hobj] at he; simp [elementId] at he
      | bool b => rw [hobj] at he; simp [elementId] at he
      | num m => rw [hobj] at he; simp [elementId] at he
      | str s => rw [hobj] at he; simp [elementId] at he
      | arr elems => rw [hobj] at he; simp [elementId] at he

/-- A bad element — not an object, or an object without an `id` —
makes the fold throw a `FormatError`. -/
theorem buildIdMap_err (elements : List Json) :
    ∀ acc, (∃ e ∈ elements, elementId e = none) →
      ∃ msg, loadJsonArrayAsMap.buildIdMap elements acc = .error (.formatError msg) := by
  induction elements with
  | nil => rintro acc ⟨e, he, -⟩; simp at he
  | cons e rest ih =>
      rintro acc ⟨x, hx, hxid⟩
      cases e with
      | obj fields =>
          cases hid : jsGet fields "id" with
          | none => exact ⟨_, by rw [loadJsonArrayAsMap.buildIdMap, hid]⟩
          | some i =>
              rcases List.mem_cons.mp hx with rfl | hx'
              · rw [elementId, hid] at hxid; exact absurd hxid (by simp)
              · obtain ⟨msg, hmsg⟩ :=
                  ih (idSet acc i (.obj fields)) ⟨x, hx', hxid⟩
                exact ⟨msg, by rw [loadJsonArrayAsMap.buildIdMap, hid]; exact hmsg⟩
      | null => exact ⟨_, rfl⟩
      | bool b => exact ⟨_, rfl⟩
      | num m => exact ⟨_, rfl⟩
      | str s => exact ⟨_, rfl⟩
      | arr elems => exact ⟨_, rfl⟩

/-- C7: `loadJsonArrayAsMap` fails with a `FormatError` when the
top-level value is not an array, or when some element is not an object
or lacks a defined `id` property (`elementId e = none` covers exactly
those two cases); otherwise it returns the mapping from each element's
`id` to the element itself, a later duplicate `id` silently
overwriting an earlier one — reading any key answers the last element
whose `id` matches it under JS map-key equality — and a missing file
yields an empty mapping. -/
theorem loadJsonArrayAsMap_spec :
    loadJsonArrayAsMap .enoent = .ok [] ∧
    (∀ j, basicType j ≠ "array" →
      ∃ msg, loadJsonArrayAsMap (.content (some j)) = .error (.formatError msg)) ∧
    (∀ elements, (∃ e ∈ elements, elementId e = none) →
      ∃ msg, loadJsonArrayAsMap (.content (some (.arr elements))) =
        .error (.formatError msg)) ∧
    (∀ elements, (∀ e ∈ elements, (elementId e).isSome) →
      ∃ result, loadJsonArrayAsMap (.content (some (.arr elements))) = .ok result ∧
        ∀ q, idGet result q = lastIdMatch elements q) := by
  refine ⟨rfl, ?_, ?_, ?_⟩
  · intro j h
    cases j with
    | arr elems => simp [basicType] at h
    | null => exact ⟨_, rfl⟩
    | bool b => exact ⟨_, rfl⟩
    | num m => exact ⟨_, rfl⟩
    | str s => exact ⟨_, rfl⟩
    | obj entries => exact ⟨_, rfl⟩
  · intro elements h
    obtain ⟨msg, hmsg⟩ := buildIdMap_err elements [] h
    exact ⟨msg, hmsg⟩
  · intro elements h
    obtain ⟨result, hres, hget⟩ := buildIdMap_ok elements [] h
    refine ⟨result, hres, fun q => ?_⟩
    rw [hget q]
    cases lastIdMatch elements q <;> simp [idGet]

/-- Witness for C7: an element without `id` is rejected; two elements
sharing `id: 1` resolve to the later one. -/
theorem loadJsonArrayAsMap_spec_witness :
    (∃ msg, loadJsonArrayAsMap (.content (some (.arr [.obj [("name", .str "x")]]))) =
      .error (.formatError msg)) ∧
    (∃ result,
      loadJsonArrayAsMap (.content (some (.arr
        [.obj [("id", .num 1), ("a", .num 10)],
         .obj [("id", .num 1), ("a", .num 20)]]))) = .ok result ∧
      ∀ q, idGet result q = lastIdMatch
        [.obj [("id", .num 1), ("a", .num 10)],
         .obj [("id", .num 1), ("a", .num 20)]] q) :=
  ⟨loadJsonArrayAsMap_spec.2.2.1 [.obj [("name", .str "x")]]
      ⟨.obj [("name", .str "x")], by simp, by simp [elementId, jsGet]⟩,
   loadJsonArrayAsMap_spec.2.2.2
      [.obj [("id", .num 1), ("a", .num 10)], .obj [("id", .num 1), ("a", .num 20)]]
      (by
        intro e he
        rcases List.mem_cons.mp he with rfl | he'
        · simp [elementId, jsGet]
        · rcases List.mem_cons.mp he' with rfl | he''
          · simp [elementId, jsGet]
          · simp at he'')⟩

/-! ## The `serialize()` closed form -/

theorem writeNonzero_nil (r : List (String × ℤ)) : writeNonzero r [] = r := rfl

theorem writeNonzero_cons (r : List (String × ℤ)) (q : String) (c : ℤ)
    (rest : List (String × ℤ)) :
    writeNonzero r ((q, c) :: rest) =
      writeNonzero (if c = 0 then r else jsSet r q c) rest := rfl

theorem serializeItem_nil (obj : List (String × List (String × ℤ))) (name : String) :
    ItemDatabase.serializeItem obj name [] = obj := rfl

theorem serializeItem_cons (obj : List (String × List (String × ℤ))) (name q : String)
    (c : ℤ) (rest : List (String × ℤ)) :
    ItemDatabase.serializeItem obj name ((q, c) :: rest) =
      ItemDatabase.serializeItem
        (if c = 0 then obj
         else jsSet obj name (jsSet ((jsGet obj name).getD []) q c)) name rest := rfl

theorem writeNonzero_of_all_zero (qs : List (String × ℤ)) :
    ∀ r, (∀ p ∈ qs, p.2 = 0) → writeNonzero r qs = r := by
  induction qs with
  | nil => intro r _; rfl
  | cons p rest ih =>
      obtain ⟨q, c⟩ := p
      intro r h
      rw [writeNonzero_cons, if_pos (h (q, c) (by simp))]
      exact ih r (fun p hp => h p (by simp [hp]))

theorem writeNonzero_disjoint (qs : List (String × ℤ)) :
    ∀ r, (∀ k ∈ qs.map Prod.fst, k ∉ r.map Prod.fst) → (qs.map Prod.fst).Nodup →
      writeNonzero r qs = r ++ qs.filter (fun p => p.2 ≠ 0) := by
  induction qs with
  | nil => intro r _ _; simp [writeNonzero_nil]
  | cons p rest ih =>
      obtain ⟨q, c⟩ := p
      intro r hdisj hnodup
      rw [List.map_cons] at hnodup
      rw [writeNonzero_cons]
      by_cases hc : c = 0
      · rw [if_pos hc,
          ih r (fun k hk => hdisj k (by simp [hk])) (List.nodup_cons.mp hnodup).2]
        simp [List.filter_cons, hc]
      · rw [if_neg hc]
        have hq : q ∉ r.map Prod.fst := hdisj q (by simp)
        have happ : jsSet r q c = r ++ [(q, c)] :=
          jsSet_of_get_none _ _ _ (jsGet_eq_none_of_not_mem _ _ hq)
        rw [happ, ih (r ++ [(q, c)])
          (by
            intro k hk
            simp only [List.map_append, List.mem_append]
            push_neg
            refine ⟨hdisj k (by simp [hk]), ?_⟩
            have : k ≠ q := by
              intro he
              exact (List.nodup_cons.mp hnodup).1 (he ▸ hk)
            simpa using this)
          (List.nodup_cons.mp hnodup).2]
        simp [List.filter_cons, hc]

theorem serializeItem_eq (name : String) (qs : List (String × ℤ)) :
    ∀ obj, ItemDatabase.serializeItem obj name qs =
      if (qs.filter (fun p => p.2 ≠ 0)).isEmpty then obj
      else jsSet obj name (writeNonzero ((jsGet obj name).getD []) qs) := by
  induction qs with
  | nil => intro obj; simp [serializeItem_nil]
  | cons p rest ih =>
      obtain ⟨q, c⟩ := p
      intro obj
      rw [serializeItem_cons]
      by_cases hc : c = 0
      · subst hc
        have hstep : (if (0 : ℤ) = 0 then obj
            else jsSet obj name (jsSet ((jsGet obj name).getD []) q 0)) = obj := by simp
        rw [hstep, ih obj]
        have hfilw : ((q, (0 : ℤ)) :: rest).filter (fun p => p.2 ≠ 0) =
            rest.filter (fun p => p.2 ≠ 0) := by
          simp [List.filter_cons]
        have hw : writeNonzero ((jsGet obj name).getD []) ((q, (0 : ℤ)) :: rest) =
            writeNonzero ((jsGet obj name).getD []) rest := by
          rw [writeNonzero_cons]
          simp
        rw [hfilw, hw]
      · have hstep : (if c = 0 then obj
            else jsSet obj name (jsSet ((jsGet obj name).getD []) q c)) =
            jsSet obj name (jsSet ((jsGet obj name).getD []) q c) := if_neg hc
        rw [hstep, ih (jsSet obj name (jsSet ((jsGet obj name).getD []) q c)),
          jsGet_jsSet_self]
        simp only [Option.getD_some]
        have hfil : ((q, c) :: rest).filter (fun p => p.2 ≠ 0) =
            (q, c) :: rest.filter (fun p => p.2 ≠ 0) := by
          simp [List.filter_cons, hc]
        rw [hfil]
        have hrhs : (if ((q, c) :: rest.filter (fun p => p.2 ≠ 0)).isEmpty = true then obj
            else jsSet obj name
              (writeNonzero ((jsGet obj name).getD []) ((q, c) :: rest))) =
            jsSet obj name
              (writeNonzero ((jsGet obj name).getD []) ((q, c) :: rest)) := by
          simp
        rw [hrhs, writeNonzero_cons, if_neg hc]
        by_cases hrest : (rest.filter (fun p => p.2 ≠ 0)).isEmpty = true
        · rw [if_pos hrest]
          have hallz : ∀ p ∈ rest, p.2 = 0 := by
            have hnil := List.isEmpty_iff.mp hrest
            intro p hp
            have := List.filter_eq_nil_iff.mp hnil p hp
            simpa using this
          rw [writeNonzero_of_all_zero rest
            (jsSet ((jsGet obj name).getD []) q c) hallz]
        · rw [if_neg hrest, jsSet_jsSet_self]

theorem serialize_foldl_cons (obj : List (String × List (String × ℤ))) (n : String)
    (qs : List (String × ℤ)) (rest : List (String × List (String × ℤ))) :
    List.foldl (fun o p => ItemDatabase.serializeItem o p.1 p.2) obj ((n, qs) :: rest) =
      List.foldl (fun o p => ItemDatabase.serializeItem o p.1 p.2)
        (ItemDatabase.serializeItem obj n qs) rest := rfl

/-- The outer `serialize()` loop over items whose names avoid the
accumulated object: each item contributes its pruned record, or
nothing when all its counts are zero. -/
theorem serialize_go (items : List (String × List (String × ℤ))) :
    ∀ obj, (∀ n ∈ items.map Prod.fst, n ∉ obj.map Prod.fst) →
      (items.map Prod.fst).Nodup → (∀ p ∈ items, (p.2.map Prod.fst).Nodup) →
      List.foldl (fun o p => ItemDatabase.serializeItem o p.1 p.2) obj items =
        obj ++ items.filterMap pruneItem := by
  induction items with
  | nil => intro obj _ _ _; simp
  | cons hd rest ih =>
      obtain ⟨n, qs⟩ := hd
      intro obj hdisj hnodup hrec
      rw [List.map_cons] at hnodup
      have hn : n ∉ obj.map Prod.fst := hdisj n (by simp)
      have hget : jsGet obj n = none := jsGet_eq_none_of_not_mem _ _ hn
      rw [serialize_foldl_cons, serializeItem_eq]
      by_cases hall : (qs.filter (fun p => p.2 ≠ 0)).isEmpty = true
      · rw [if_pos hall,
          ih obj (fun k hk => hdisj k (by simp [hk])) (List.nodup_cons.mp hnodup).2
            (fun p hp => hrec p (by simp [hp]))]
        have hprune : pruneItem (n, qs) = none := by
          simp only [pruneItem]
          rw [if_pos hall]
        rw [List.filterMap_cons, hprune]
      · rw [if_neg hall, hget]
        simp only [Option.getD_none]
        have hwz : writeNonzero [] qs = qs.filter (fun p => p.2 ≠ 0) := by
          have := writeNonzero_disjoint qs [] (by simp) (hrec (n, qs) (by simp))
          simpa using this
        rw [hwz]
        have happ : jsSet obj n (qs.filter (fun p => p.2 ≠ 0)) =
            obj ++ [(n, qs.filter (fun p => p.2 ≠ 0))] :=
          jsSet_of_get_none _ _ _ hget
        rw [happ,
          ih (obj ++ [(n, qs.filter (fun p => p.2 ≠ 0))])
            (by
              intro k hk
              simp only [List.map_append, List.mem_append]
              push_neg
              refine ⟨hdisj k (by simp [hk]), ?_⟩
              have : k ≠ n := by
                intro he
                exact (List.nodup_cons.mp hnodup).1 (he ▸ hk)
              simpa using this)
            (List.nodup_cons.mp hnodup).2
            (fun p hp => hrec p (by simp [hp]))]
        have hprune : pruneItem (n, qs) = some (n, qs.filter (fun p => p.2 ≠ 0)) := by
          simp only [pruneItem]
          rw [if_neg hall]
        rw [List.filterMap_cons, hprune]
        simp

/-- `serialize()` in closed form: prune each item, in order. -/
theorem serialize_eq_filterMap (db : ItemDatabase) (h : ItemDatabase.WF db) :
    ItemDatabase.serialize db = db.items.filterMap pruneItem := by
  have hgo := serialize_go db.items [] (by simp) h.1 h.2
  simpa [ItemDatabase.serialize] using hgo

open ItemDatabase in
/-- C2: for every well-formed ledger state, `serialize()` omits every
quality whose count is exactly 0 and omits an item name entirely when
none of its qualities has a non-zero count, while `size` still reports
the number of item names resident in memory, including all-zero
items. -/
theorem serialize_prunes_zeros_and_size_counts_resident (db : ItemDatabase)
    (h : WF db) :
    (∀ n qs, (n, qs) ∈ serialize db → qs ≠ [] ∧ ∀ p ∈ qs, p.2 ≠ 0) ∧
    (∀ n, (∃ qs, (n, qs) ∈ serialize db) ↔
      ∃ qs, (n, qs) ∈ db.items ∧ ∃ p ∈ qs, p.2 ≠ 0) ∧
    db.size = db.items.length := by
  have hs := serialize_eq_filterMap db h
  refine ⟨?_, ?_, rfl⟩
  · intro n qs hmem
    rw [hs] at hmem
    obtain ⟨⟨n', qs'⟩, hmem', heq⟩ := List.mem_filterMap.mp hmem
    simp only [pruneItem] at heq
    split at heq
    · exact absurd heq (by simp)
    · rename_i hne
      injection heq with h2
      injection h2 with hn hqs
      subst hn
      subst hqs
      constructor
      · intro hnil
        exact hne (by rw [hnil]; rfl)
      · intro p hp
        have := List.mem_filter.mp hp
        simpa using this.2
  · intro n
    constructor
    · rintro ⟨qs, hmem⟩
      rw [hs] at hmem
      obtain ⟨⟨n', qs'⟩, hmem', heq⟩ := List.mem_filterMap.mp hmem
      simp only [pruneItem] at heq
      split at heq
      · exact absurd heq (by simp)
      · rename_i hne
        injection heq with h2
        injection h2 with hn hqs
        subst hn
        refine ⟨qs', hmem', ?_⟩
        have hex : qs'.filter (fun p => p.2 ≠ 0) ≠ [] := by
          intro hnil
          exact hne (by rw [hnil]; rfl)
        obtain ⟨p, hp⟩ := List.exists_mem_of_ne_nil _ hex
        have := List.mem_filter.mp hp
        exact ⟨p, this.1, by simpa using this.2⟩
    · rintro ⟨qs, hmem, p, hp, hnz⟩
      refine ⟨qs.filter (fun r => r.2 ≠ 0), ?_⟩
      rw [hs]
      refine List.mem_filterMap.mpr ⟨(n, qs), hmem, ?_⟩
      simp only [pruneItem]
      rw [if_neg ?_]
      intro hempty
      have hnil := List.isEmpty_iff.mp hempty
      have := List.filter_eq_nil_iff.mp hnil p hp
      exact this (by simpa using hnz)

open ItemDatabase in
/-- Witness for C2, the zero-pruning scenario: a resident `"plate"`
whose only count is 0 is absent from `serialize()`, while `size`
still reports it. -/
theorem serialize_prunes_zeros_witness :
    (¬∃ qs, ("plate", qs) ∈ serialize ⟨[("plate", [("normal", 0)])]⟩) ∧
    ItemDatabase.size ⟨[("plate", [("normal", 0)])]⟩ = 1 := by
  have h := serialize_prunes_zeros_and_size_counts_resident
    ⟨[("plate", [("normal", 0)])]⟩ (by decide)
  refine ⟨fun hex => ?_, h.2.2.trans rfl⟩
  obtain ⟨qs, hmem, p, hp, hnz⟩ := (h.2.1 "plate").mp hex
  have hqs : qs = [("normal", (0 : ℤ))] := by
    simp at hmem
    exact hmem
  subst hqs
  have hp0 : p = ("normal", (0 : ℤ)) := by simpa using hp
  rw [hp0] at hnz
  exact hnz rfl

/-! ## Reconstruction from a serialized snapshot -/

theorem pruneItem_eq (n : String) (qs : List (String × ℤ)) :
    pruneItem (n, qs) =
      if (qs.filter (fun r => r.2 ≠ 0)).isEmpty = true then none
      else some (n, qs.filter (fun r => r.2 ≠ 0)) := rfl

/-- Every entry of a pruned list is a pruned entry of the original. -/
theorem mem_filterMap_pruneItem {l : List (String × List (String × ℤ))}
    {n : String} {qs : List (String × ℤ)}
    (hmem : (n, qs) ∈ l.filterMap pruneItem) :
    ∃ qs', (n, qs') ∈ l ∧ qs = qs'.filter (fun r => r.2 ≠ 0) ∧ qs ≠ [] := by
  obtain ⟨⟨n', qs'⟩, hmem', heq⟩ := List.mem_filterMap.mp hmem
  rw [pruneItem_eq] at heq
  split at heq
  · exact absurd heq (by simp)
  · rename_i hne
    injection heq with h2
    injection h2 with hn hqs
    subst hn
    refine ⟨qs', hmem', hqs.symm, ?_⟩
    intro hnil
    rw [← hqs] at hnil
    exact hne (by rw [hnil]; rfl)

theorem filterMap_pruneItem_keys_sublist (l : List (String × List (String × ℤ))) :
    List.Sublist ((l.filterMap pruneItem).map Prod.fst) (l.map Prod.fst) := by
  induction l with
  | nil => simp
  | cons hd rest ih =>
      obtain ⟨n, qs⟩ := hd
      rw [List.filterMap_cons]
      cases hp : pruneItem (n, qs) with
      | none =>
          rw [List.map_cons]
          exact ih.cons n
      | some p =>
          have hfst : p.1 = n := by
            rw [pruneItem_eq] at hp
            split at hp
            · exact absurd hp (by simp)
            · injection hp with h2
              rw [← h2]
          rw [List.map_cons, List.map_cons, hfst]
          exact ih.cons₂ n

/-- Pruning a list that is already pruned — no empty record, no zero
count — changes nothing. -/
theorem filterMap_pruneItem_of_clean (l : List (String × List (String × ℤ)))
    (h : ∀ p ∈ l, p.2 ≠ [] ∧ ∀ q ∈ p.2, q.2 ≠ 0) :
    l.filterMap pruneItem = l := by
  induction l with
  | nil => rfl
  | cons hd rest ih =>
      obtain ⟨n, qs⟩ := hd
      have hhd := h (n, qs) (by simp)
      have hfil : qs.filter (fun r => r.2 ≠ 0) = qs :=
        List.filter_eq_self.mpr (fun a ha => by simpa using hhd.2 a ha)
      have hprune : pruneItem (n, qs) = some (n, qs) := by
        rw [pruneItem_eq, hfil, if_neg]
        intro hempty
        exact hhd.1 (List.isEmpty_iff.mp hempty)
      rw [List.filterMap_cons, hprune, ih (fun p hp => h p (by simp [hp]))]

theorem validateQualities_num (r : List (String × ℤ)) :
    validateQualities (r.map (fun q => (q.1, Json.num q.2))) = .ok r := by
  induction r with
  | nil => rfl
  | cons p rest ih =>
      obtain ⟨q, c⟩ := p
      simp [validateQualities, checkCountJson, ih]

/-- The constructor on a snapshot read back from `serialize()`:
every record validates, and the items end up stored verbatim. -/
theorem ofSerialized_go_snapshot (o : List (String × List (String × ℤ))) :
    ∀ acc, (∀ n ∈ o.map Prod.fst, n ∉ acc.map Prod.fst) → (o.map Prod.fst).Nodup →
      ItemDatabase.ofSerialized.go (toSnapshot o) acc = .ok ⟨acc ++ o⟩ := by
  induction o with
  | nil =>
      intro acc _ _
      simp [toSnapshot, ItemDatabase.ofSerialized.go]
  | cons hd rest ih =>
      obtain ⟨n, r⟩ := hd
      intro acc hdisj hnodup
      rw [List.map_cons] at hnodup
      have hn : n ∉ acc.map Prod.fst := hdisj n (by simp)
      have happ : jsSet acc n r = acc ++ [(n, r)] :=
        jsSet_of_get_none _ _ _ (jsGet_eq_none_of_not_mem _ _ hn)
      have hcons : toSnapshot ((n, r) :: rest) =
          (n, SVal.record (r.map (fun q => (q.1, Json.num q.2)))) :: toSnapshot rest := rfl
      rw [hcons, ItemDatabase.ofSerialized.go]
      simp only [validateQualities_num]
      rw [happ,
        ih (acc ++ [(n, r)])
          (by
            intro k hk
            simp only [List.map_append, List.mem_append]
            push_neg
            refine ⟨hdisj k (by simp [hk]), ?_⟩
            have : k ≠ n := by
              intro he
              exact (List.nodup_cons.mp hnodup).1 (he ▸ hk)
            simpa using this)
          (List.nodup_cons.mp hnodup).2]
      simp

open ItemDatabase in
/-- C9: serializing a well-formed ledger, constructing a new
`ItemDatabase` from the snapshot, and serializing the new database
yields output identical to the first serialization. -/
theorem serialize_construct_serialize_idempotent (db : ItemDatabase) (h : WF db) :
    ∃ db2, ofSerialized (toSnapshot (serialize db)) = .ok db2 ∧
      serialize db2 = serialize db := by
  have hs := serialize_eq_filterMap db h
  have hkeys : ((serialize db).map Prod.fst).Nodup := by
    rw [hs]
    exact h.1.sublist (filterMap_pruneItem_keys_sublist db.items)
  have hclean : ∀ p ∈ serialize db, p.2 ≠ [] ∧ ∀ q ∈ p.2, q.2 ≠ 0 := by
    rintro ⟨n, qs⟩ hmem
    rw [hs] at hmem
    obtain ⟨qs', hmem', hqs, hne⟩ := mem_filterMap_pruneItem hmem
    refine ⟨hne, ?_⟩
    intro p hp
    rw [hqs] at hp
    have := List.mem_filter.mp hp
    simpa using this.2
  have hrecn : ∀ p ∈ serialize db, (p.2.map Prod.fst).Nodup := by
    rintro ⟨n, qs⟩ hmem
    rw [hs] at hmem
    obtain ⟨qs', hmem', hqs, -⟩ := mem_filterMap_pruneItem hmem
    rw [hqs]
    exact (h.2 (n, qs') hmem').sublist ((List.filter_sublist qs').map Prod.fst)
  refine ⟨⟨serialize db⟩, ?_, ?_⟩
  · unfold ofSerialized
    have := ofSerialized_go_snapshot (serialize db) [] (by simp) hkeys
    simpa using this
  · have hWF2 : WF ⟨serialize db⟩ := ⟨hkeys, hrecn⟩
    rw [serialize_eq_filterMap ⟨serialize db⟩ hWF2]
    exact filterMap_pruneItem_of_clean _ hclean

open ItemDatabase in
/-- Witness for C9 on a ledger with a zero quality, an all-zero item
and a surviving count. -/
theorem serialize_construct_serialize_idempotent_witness :
    ∃ db2, ofSerialized (toSnapshot (serialize
      ⟨[("a", [("x", 2), ("y", 0)]), ("b", [("z", 0)])]⟩)) = .ok db2 ∧
      serialize db2 =
        serialize ⟨[("a", [("x", 2), ("y", 0)]), ("b", [("z", 0)])]⟩ :=
  serialize_construct_serialize_idempotent
    ⟨[("a", [("x", 2), ("y", 0)]), ("b", [("z", 0)])]⟩ (by decide)

theorem ofSerialized_go_cons_num (name : String) (m : ℤ) (rest : List (String × SVal))
    (acc : List (String × List (String × ℤ))) :
    ItemDatabase.ofSerialized.go ((name, SVal.num m) :: rest) acc =
      ItemDatabase.ofSerialized.go rest (jsSet acc name [("normal", m)]) := rfl

theorem ofSerialized_go_cons_record (name : String) (entries : List (String × Json))
    (rest : List (String × SVal)) (acc : List (String × List (String × ℤ))) :
    ItemDatabase.ofSerialized.go ((name, SVal.record entries) :: rest) acc =
      match validateQualities entries with
      | .error e => .error e
      | .ok record => ItemDatabase.ofSerialized.go rest (jsSet acc name record) := rfl

/-- A successful count validation returns exactly the numeric entries,
which — all entries being numbers — is the record itself. -/
theorem validateQualities_ok_eq (e : List (String × Json)) :
    ∀ r, validateQualities e = .ok r →
      r = e.filterMap (fun p =>
        match p.2 with
        | .num n => some ((p.1, n) : String × ℤ)
        | _ => none) := by
  induction e with
  | nil =>
      intro r h
      injection h with h2
      rw [← h2]
      rfl
  | cons p rest ih =>
      obtain ⟨q, v⟩ := p
      intro r h
      cases v with
      | num m =>
          cases hrest : validateQualities rest with
          | error e2 => simp [validateQualities, checkCountJson, hrest] at h
          | ok tail =>
              simp only [validateQualities, checkCountJson, hrest, ok_bind,
                pure_eq_ok] at h
              injection h with h2
              rw [← h2, List.filterMap_cons]
              simp [ih tail hrest]
      | null => simp [validateQualities, checkCountJson] at h
      | bool b => simp [validateQualities, checkCountJson] at h
      | str s => simp [validateQualities, checkCountJson] at h
      | arr elems => simp [validateQualities, checkCountJson] at h
      | obj entries => simp [validateQualities, checkCountJson] at h

/-- A successful construction stores, for each snapshot entry in
order, the migrated record: `{ normal: n }` for a bare number, the
record itself otherwise. -/
theorem ofSerialized_go_ok (s : List (String × SVal)) :
    ∀ acc db, (∀ n ∈ s.map Prod.fst, n ∉ acc.map Prod.fst) → (s.map Prod.fst).Nodup →
      ItemDatabase.ofSerialized.go s acc = .ok db →
      db.items = acc ++ s.map (fun p => (p.1, migrateSpec p.2)) := by
  induction s with
  | nil =>
      intro acc db _ _ hok
      injection hok with h2
      rw [← h2]
      simp
  | cons hd rest ih =>
      obtain ⟨name, v⟩ := hd
      intro acc db hdisj hnodup hok
      rw [List.map_cons] at hnodup
      have hn : name ∉ acc.map Prod.fst := hdisj name (by simp)
      have hdisj2 : ∀ k ∈ rest.map Prod.fst, k ∉ (acc ++ [(name, migrateSpec v)]).map Prod.fst := by
        intro k hk
        simp only [List.map_append, List.mem_append]
        push_neg
        refine ⟨hdisj k (by simp [hk]), ?_⟩
        have : k ≠ name := by
          intro he
          exact (List.nodup_cons.mp hnodup).1 (he ▸ hk)
        simpa using this
      cases v with
      | num m =>
          rw [ofSerialized_go_cons_num] at hok
          have happ : jsSet acc name [("normal", m)] = acc ++ [(name, [("normal", m)])] :=
            jsSet_of_get_none _ _ _ (jsGet_eq_none_of_not_mem _ _ hn)
          rw [happ] at hok
          have := ih (acc ++ [(name, [("normal", m)])]) db
            (by simpa [migrateSpec] using hdisj2) (List.nodup_cons.mp hnodup).2 hok
          rw [this]
          simp [migrateSpec]
      | record entries =>
          rw [ofSerialized_go_cons_record] at hok
          cases hval : validateQualities entries with
          | error e2 => rw [hval] at hok; exact absurd hok (by simp)
          | ok record =>
              rw [hval] at hok
              have hok2 : ItemDatabase.ofSerialized.go rest (jsSet acc name record) =
                  .ok db := hok
              have hrec : record = migrateSpec (.record entries) :=
                validateQualities_ok_eq entries record hval
              have happ : jsSet acc name record = acc ++ [(name, record)] :=
                jsSet_of_get_none _ _ _ (jsGet_eq_none_of_not_mem _ _ hn)
              rw [happ] at hok2
              have := ih (acc ++ [(name, record)]) db
                (by rw [← hrec] at hdisj2; exact hdisj2)
                (List.nodup_cons.mp hnodup).2 hok2
              rw [this, hrec]
              simp

open ItemDatabase in
/-- C4: a snapshot entry holding a bare number `n` is reinterpreted by
the constructor as `{ normal: n }` — in particular `{ wood: 5 }`
yields `getItemCount("wood", "normal") === 5` — and this is the only
migration applied: every other (record) entry is stored verbatim. -/
theorem constructor_legacy_migration :
    (∀ s db, (s.map Prod.fst).Nodup → ofSerialized s = .ok db →
      db.items = s.map (fun p => (p.1, migrateSpec p.2))) ∧
    ofSerialized [("wood", SVal.num 5)] = .ok ⟨[("wood", [("normal", 5)])]⟩ ∧
    (ofSerialized [("wood", SVal.num 5)]).bind
      (fun db => db.getItemCount (.str "wood") (.str "normal")) = .ok 5 := by
  refine ⟨?_, rfl, rfl⟩
  intro s db hnodup hok
  have hgo : ItemDatabase.ofSerialized.go s [] = .ok db := hok
  have := ofSerialized_go_ok s [] db (by simp) hnodup hgo
  simpa using this

/-- Witness for C4: a legacy number and a quality record constructed
side by side; only the number is migrated. -/
theorem constructor_legacy_migration_witness :
    ItemDatabase.items ⟨[("wood", [("normal", 5)]), ("iron", [("rare", 2)])]⟩ =
      [("wood", SVal.num 5), ("iron", SVal.record [("rare", Json.num 2)])].map
        (fun p => (p.1, migrateSpec p.2)) :=
  constructor_legacy_migration.1
    [("wood", SVal.num 5), ("iron", SVal.record [("rare", Json.num 2)])]
    ⟨[("wood", [("normal", 5)]), ("iron", [("rare", 2)])]⟩ (by decide) rfl

/-! ## Residency is monotone over the ledger lifetime -/

/-- Whenever `addItem` succeeds, the new state is a single `Map.set`
on the old one. -/
theorem addItem_ok_shape (db : ItemDatabase) (name count quality : Arg)
    (db2 : ItemDatabase) (h : db.addItem name count quality = .ok db2) :
    ∃ n r, db2.items = jsSet db.items n r := by
  cases name with
  | str n =>
      cases count with
      | num c =>
          cases quality with
          | str q =>
              rw [ItemDatabase.addItem_valid] at h
              injection h with h2
              cases hget : jsGet db.items n with
              | none =>
                  refine ⟨n, [(q, c)], ?_⟩
                  rw [← h2, hget]
              | some qs =>
                  refine ⟨n, jsSet qs q ((jsGet qs q).getD 0 + c), ?_⟩
                  rw [← h2, hget]
          | num m => simp [ItemDatabase.addItem, checkName, checkCount, checkQuality] at h
          | nan => simp [ItemDatabase.addItem, checkName, checkCount, checkQuality] at h
          | other t => simp [ItemDatabase.addItem, checkName, checkCount, checkQuality] at h
      | str s => simp [ItemDatabase.addItem, checkName, checkCount] at h
      | nan => simp [ItemDatabase.addItem, checkName, checkCount] at h
      | other t => simp [ItemDatabase.addItem, checkName, checkCount] at h
  | num m => simp [ItemDatabase.addItem, checkName] at h
  | nan => simp [ItemDatabase.addItem, checkName] at h
  | other t => simp [ItemDatabase.addItem, checkName] at h

/-- Likewise for a successful `removeItem`, which delegates to
`addItem`. -/
theorem removeItem_ok_shape (db : ItemDatabase) (name count quality : Arg)
    (db2 : ItemDatabase) (h : db.removeItem name count quality = .ok db2) :
    ∃ n r, db2.items = jsSet db.items n r := by
  cases count with
  | num c =>
      have h2 : db.addItem name (.num (-c)) quality = .ok db2 := by
        simpa [ItemDatabase.removeItem, checkCount] using h
      exact addItem_ok_shape db name (.num (-c)) quality db2 h2
  | str s => simp [ItemDatabase.removeItem, checkCount] at h
  | nan => simp [ItemDatabase.removeItem, checkCount] at h
  | other t => simp [ItemDatabase.removeItem, checkCount] at h

/-- One call — completing or throwing — keeps every resident item name
and never shrinks the map. -/
theorem applyOp_mono (db : ItemDatabase) (op : Op) :
    (∀ a ∈ db.items.map Prod.fst, a ∈ (applyOp db op).items.map Prod.fst) ∧
    db.items.length ≤ (applyOp db op).items.length := by
  cases op with
  | get name quality => exact ⟨fun a ha => ha, le_refl _⟩
  | ser => exact ⟨fun a ha => ha, le_refl _⟩
  | entries => exact ⟨fun a ha => ha, le_refl _⟩
  | add name count quality =>
      cases h : db.addItem name count quality with
      | error e =>
          simp only [applyOp, h]
          exact ⟨fun a ha => ha, le_refl _⟩
      | ok db2 =>
          simp only [applyOp, h]
          obtain ⟨n, r, hitems⟩ := addItem_ok_shape db name count quality db2 h
          rw [hitems]
          exact ⟨fun a ha => mem_map_fst_jsSet _ _ _ _ ha, length_jsSet _ _ _⟩
  | remove name count quality =>
      cases h : db.removeItem name count quality with
      | error e =>
          simp only [applyOp, h]
          exact ⟨fun a ha => ha, le_refl _⟩
      | ok db2 =>
          simp only [applyOp, h]
          obtain ⟨n, r, hitems⟩ := removeItem_ok_shape db name count quality db2 h
          rw [hitems]
          exact ⟨fun a ha => mem_map_fst_jsSet _ _ _ _ ha, length_jsSet _ _ _⟩

open ItemDatabase in
/-- C10: over any sequence of `getItemCount`, `addItem`, `removeItem`,
`serialize` and `getEntries` calls, completing or throwing, every item
name resident before remains resident after, and `size` never
decreases. -/
theorem no_operation_evicts_names (db : ItemDatabase) (ops : List Op) :
    (∀ n, n ∈ db.items.map Prod.fst → n ∈ (runOps db ops).items.map Prod.fst) ∧
    db.size ≤ (runOps db ops).size := by
  induction ops generalizing db with
  | nil => exact ⟨fun n h => h, le_refl _⟩
  | cons op rest ih =>
      have h1 := applyOp_mono db op
      have h2 := ih (applyOp db op)
      exact ⟨fun n hn => h2.1 n (h1.1 n hn), le_trans h1.2 h2.2⟩

open ItemDatabase in
/-- Witness for C10: a remove that drives `"plate"` negative and a
throwing call leave the name resident and `size` intact. -/
theorem no_operation_evicts_names_witness :
    "plate" ∈ (runOps ⟨[("plate", [("normal", 0)])]⟩
      [.remove (.str "plate") (.num 5) (.str "normal"),
       .add (.num 7) (.num 1) (.str "normal"), .ser]).items.map Prod.fst ∧
    ItemDatabase.size ⟨[("plate", [("normal", 0)])]⟩ ≤
      ItemDatabase.size (runOps ⟨[("plate", [("normal", 0)])]⟩
        [.remove (.str "plate") (.num 5) (.str "normal"),
         .add (.num 7) (.num 1) (.str "normal"), .ser]) :=
  ⟨(no_operation_evicts_names ⟨[("plate", [("normal", 0)])]⟩
      [.remove (.str "plate") (.num 5) (.str "normal"),
       .add (.num 7) (.num 1) (.str "normal"), .ser]).1 "plate" (by decide),
   (no_operation_evicts_names ⟨[("plate", [("normal", 0)])]⟩
      [.remove (.str "plate") (.num 5) (.str "normal"),
       .add (.num 7) (.num 1) (.str "normal"), .ser]).2⟩

end ClusterioDb
